import Mathlib

/-!
Verification development for the `tcx` repository: a shallow embedding of
the trackpoint extractor (`src/lib.rs`) and the windowed aggregation engine
(`src/main.rs`) over exact rational arithmetic, together with theorems
settling the specification's claims.

Conventions of the embedding:
* Rust `f64` values are modelled as `ℚ` (exact arithmetic, as the claims
  stipulate); in `ℚ` a division by zero evaluates to `0`.
* `chrono::DateTime<Utc>` timestamps are modelled as `ℚ` (seconds, with
  sub-second precision); `Duration::num_seconds` truncates toward zero,
  modelled by `Tcx.numSeconds`.
* A Rust process-fatal abort (an `expect`, `assert!` or index failure) is
  modelled by the `Tcx.Halt.fatal` outcome; `Tcx.Halt.nofuel` reports that
  the supplied loop fuel was exhausted (the source `while` loop ran longer
  than the fuel bound, in particular when it runs forever).
-/

namespace Tcx

/-- Truncation of a rational number of seconds toward zero, the model of
`chrono::Duration::num_seconds`. -/
def numSeconds (q : ℚ) : ℤ :=
  q.num.tdiv q.den

/-- One trackpoint sample (`Trackpoint` in `src/lib.rs`): a timestamp and
eight independently optional numeric fields. -/
structure Trackpoint where
  time : ℚ
  latitude : Option ℚ := none
  longitude : Option ℚ := none
  altitude : Option ℚ := none
  distance : Option ℚ := none
  heartrate : Option ℚ := none
  cadence : Option ℚ := none
  speed : Option ℚ := none
  power : Option ℚ := none
deriving DecidableEq

/-- The grouping metric (`GroupBy` in `src/main.rs`). -/
inductive GroupBy where
  | Distance
  | Duration
deriving DecidableEq

/-- `GroupBy::get`: the per-pair increment of the grouping metric.  For
`Distance`, a missing distance on either sample yields the default `0`
(`n.distance.map(|d| d - m.distance.unwrap_or(d)).unwrap_or(0.0)`); for
`Duration`, the elapsed time truncated to whole seconds. -/
def GroupBy.get : GroupBy → Trackpoint → Trackpoint → ℚ
  | .Distance, m, n => (n.distance.map (fun d => d - m.distance.getD d)).getD 0
  | .Duration, m, n => (numSeconds (n.time - m.time) : ℚ)

/-- The six running sums of a window accumulator (`Values` in
`src/main.rs`). -/
structure Values where
  group_len : ℚ
  duration : ℚ
  distance : ℚ
  elevation : ℚ
  power : ℚ
  heartrate : ℚ
deriving DecidableEq

/-- `Values::add`. -/
def Values.add (a b : Values) : Values :=
  ⟨a.group_len + b.group_len, a.duration + b.duration, a.distance + b.distance,
   a.elevation + b.elevation, a.power + b.power, a.heartrate + b.heartrate⟩

/-- `Values::mult`. -/
def Values.mult (a : Values) (f : ℚ) : Values :=
  ⟨f * a.group_len, f * a.duration, f * a.distance,
   f * a.elevation, f * a.power, f * a.heartrate⟩

/-- `Values::zero`. -/
def Values.zero : Values :=
  ⟨0, 0, 0, 0, 0, 0⟩

/-- Outcome of a fallible step of the engine: `fatal` models a Rust
process-fatal abort (`expect` / `assert!`), `nofuel` exhaustion of the fuel
bound given to a source `while` loop. -/
inductive Halt where
  | fatal
  | nofuel
deriving DecidableEq

/-- `Values::delta`: the raw per-pair increments.  Missing altitude on
either sample hits an `expect` in the source and is therefore a fatal
abort. -/
def Values.delta (m n : Trackpoint) (group_by : GroupBy) : Except Halt Values :=
  match m.altitude, n.altitude with
  | some am, some an =>
      .ok ⟨group_by.get m n,
           GroupBy.Duration.get m n,
           GroupBy.Distance.get m n,
           max (an - am) 0,
           (n.power.getD 0 + m.power.getD 0) / 2 * GroupBy.Duration.get m n,
           (n.heartrate.getD 0 + m.heartrate.getD 0) / 2 * GroupBy.Duration.get m n⟩
  | _, _ => .error .fatal

/-- The QDH accumulator (`Qdh` in `src/main.rs`). -/
structure Qdh where
  qdh : ℚ
  distance : ℚ
  elevation : ℚ
deriving DecidableEq

/-- `Qdh::increment`. -/
def Qdh.increment (s : Qdh) (inc_distance inc_elevation : ℚ) : Qdh :=
  ⟨s.qdh, s.distance + inc_distance, s.elevation + inc_elevation⟩

/-- `Qdh::flush`: add the closed sub-window's `elevation² / distance × 10`
to the score (a zero-distance bucket contributes nothing) and reset the
sub-window. -/
def Qdh.flush (s : Qdh) : Qdh :=
  if 0 < s.distance then
    ⟨s.qdh + s.elevation * s.elevation / s.distance * 10, 0, 0⟩
  else
    ⟨s.qdh, 0, 0⟩

/-- `Qdh::zero`. -/
def Qdh.zero : Qdh :=
  ⟨0, 0, 0⟩

/-- The `while` loop of `Qdh::update`, indexed by fuel.  Each pass splits
the pending increment at the point the sub-window threshold `L` is
crossed and flushes. -/
def qdhLoop : Nat → Qdh → ℚ → ℚ → ℚ → Except Halt (Qdh × ℚ × ℚ)
  | 0, s, incD, incE, L =>
    if L ≤ s.distance + incD then .error .nofuel else .ok (s, incD, incE)
  | fuel + 1, s, incD, incE, L =>
    if L ≤ s.distance + incD then
      qdhLoop fuel
        ((s.increment ((L - s.distance) / incD * incD) ((L - s.distance) / incD * incE)).flush)
        ((1 - (L - s.distance) / incD) * incD) ((1 - (L - s.distance) / incD) * incE) L
    else
      .ok (s, incD, incE)

/-- `Qdh::update`: run the threshold loop, accumulate the remainder, and
force a flush when requested. -/
def Qdh.update (fuel : Nat) (s : Qdh) (inc_distance inc_elevation group_length : ℚ)
    (flush : Bool) : Except Halt Qdh :=
  (qdhLoop fuel s inc_distance inc_elevation group_length).map
    (fun r =>
      let s := r.1.increment r.2.1 r.2.2
      if flush then s.flush else s)

/-- The grouping configuration (`cli::Grouping`). -/
inductive Grouping where
  | length (group_by : GroupBy) (len : ℚ)
  | count (group_by : GroupBy) (count : ℕ)
deriving DecidableEq

/-- The grouping metric selected by a configuration. -/
def Grouping.groupBy : Grouping → GroupBy
  | .length g _ => g
  | .count g _ => g

/-- The mutable state of `main`'s fold over consecutive sample pairs,
together with the emitted windows (summary values and QDH score) and, for
observability, the list of boundary-split fractions `(f, Δgroup-metric)`
evaluated at each window close. -/
structure LoopState where
  vals : Values
  qdh : Qdh
  windows : List (Values × ℚ)
  fracs : List (ℚ × ℚ)
deriving DecidableEq

/-- One iteration of `main`'s loop body for the consecutive pair
`(m, n)`. -/
def stepPair (fuel : Nat) (group_by : GroupBy) (glen qlen : ℚ) (st : LoopState)
    (p : Trackpoint × Trackpoint) : Except Halt LoopState :=
  (Values.delta p.1 p.2 group_by).bind fun incs =>
    if glen ≤ st.vals.group_len + incs.group_len then
      (Qdh.update fuel st.qdh
          (incs.distance * ((glen - st.vals.group_len) / incs.group_len))
          (incs.elevation * ((glen - st.vals.group_len) / incs.group_len)) qlen true).bind
        fun q1 =>
          (Qdh.update fuel Qdh.zero
              (incs.distance * (1 - (glen - st.vals.group_len) / incs.group_len))
              (incs.elevation * (1 - (glen - st.vals.group_len) / incs.group_len))
              qlen false).bind
            fun q2 =>
              .ok ⟨incs.mult (1 - (glen - st.vals.group_len) / incs.group_len), q2,
                   st.windows ++
                     [(st.vals.add (incs.mult ((glen - st.vals.group_len) / incs.group_len)),
                        q1.qdh)],
                   st.fracs ++
                     [((glen - st.vals.group_len) / incs.group_len, incs.group_len)]⟩
    else
      (Qdh.update fuel st.qdh incs.distance incs.elevation qlen false).bind fun q =>
        .ok ⟨st.vals.add incs, q, st.windows, st.fracs⟩

/-- `main`'s fold over the list of consecutive pairs. -/
def loopFold (fuel : Nat) (group_by : GroupBy) (glen qlen : ℚ) :
    LoopState → List (Trackpoint × Trackpoint) → Except Halt LoopState
  | st, [] => .ok st
  | st, p :: ps =>
      (stepPair fuel group_by glen qlen st p).bind fun st => loopFold fuel group_by glen qlen st ps

/-- Consecutive pairs of a sample sequence
(`points.iter().zip(points.iter().skip(1))`). -/
def pairsOf (points : List Trackpoint) : List (Trackpoint × Trackpoint) :=
  points.zip points.tail

/-- Result of the aggregation engine: the emitted windows in order, the
remainder held by the open accumulator when the trailing content was
discarded (zero when the final window was emitted), and the recorded
boundary-split fractions. -/
structure AggOut where
  windows : List (Values × ℚ)
  remainder : Values
  fracs : List (ℚ × ℚ)
deriving DecidableEq

/-- The aggregation engine of `main` for an already-determined window size
`glen`: fold over all consecutive pairs starting from zeroed accumulators,
then emit the trailing window exactly when its group metric exceeds
`1e-6 × glen`. -/
def aggregate (fuel : Nat) (group_by : GroupBy) (glen qlen : ℚ)
    (points : List Trackpoint) : Except Halt AggOut :=
  (loopFold fuel group_by glen qlen ⟨Values.zero, Qdh.zero, [], []⟩ (pairsOf points)).bind
    fun st =>
      if 1 / 1000000 * glen < st.vals.group_len then
        (Qdh.update fuel st.qdh 0 0 qlen true).map fun q =>
          ⟨st.windows ++ [(st.vals, q.qdh)], Values.zero, st.fracs⟩
      else
        .ok ⟨st.windows, st.vals, st.fracs⟩

/-- The window-size computation of `main` from the grouping configuration:
a fixed length, or the total span between the first and last point
(`expect`ing a first point, hence fatal on an empty sequence) divided by
the requested count. -/
def groupLen (grouping : Grouping) (points : List Trackpoint) : Except Halt ℚ :=
  match grouping with
  | .length _ len => .ok len
  | .count group_by _count =>
      match points.head?, points.getLast? with
      | some first, some last => .ok (group_by.get first last / ((_count : ℕ) : ℚ))
      | _, _ => .error Halt.fatal

/-- The whole aggregation path of `main` after extraction: determine the
window size, `assert!` that it is positive, and run the engine. -/
def tcxMain (fuel : Nat) (grouping : Grouping) (qlen : ℚ)
    (points : List Trackpoint) : Except Halt AggOut :=
  (groupLen grouping points).bind fun glen =>
    if 0 < glen then aggregate fuel grouping.groupBy glen qlen points
    else .error .fatal

/-- The recoverable extraction errors of `src/lib.rs` (boxed error strings
in the source, classified as the spec's two parse-level kinds). -/
inductive TcxErr where
  | missingRequiredField
  | malformedValue
deriving DecidableEq

/-- The XML tags relevant to TCX files (`Tag` in `src/lib.rs`). -/
inductive Tag where
  | Time
  | Position
  | LatitudeDegrees
  | LongitudeDegrees
  | AltitudeMeters
  | DistanceMeters
  | HeartRateBpm
  | Value
  | Cadence
  | Extensions
  | TPX
  | Speed
  | Watts
  | RunCadence
  | Activities
  | Activity
  | Lap
  | Track
  | Trackpoint
deriving DecidableEq, BEq

/-- The optional-field enumeration (`TrkPtField` in `src/lib.rs`). -/
inductive TrkPtField where
  | Latitude
  | Longitude
  | Altitude
  | Distance
  | Heartrate
  | Cadence
  | Speed
  | Power
deriving DecidableEq

/-- `TrkPtField::get_tags`: the ordered list of alternate tag-paths of each
field, exactly the table of the source. -/
def TrkPtField.get_tags : TrkPtField → List (List Tag)
  | .Latitude => [[Tag.Position, Tag.LatitudeDegrees]]
  | .Longitude => [[Tag.Position, Tag.LongitudeDegrees]]
  | .Altitude => [[Tag.AltitudeMeters]]
  | .Distance => [[Tag.DistanceMeters]]
  | .Heartrate => [[Tag.HeartRateBpm, Tag.Value]]
  | .Cadence => [[Tag.Cadence], [Tag.Extensions, Tag.TPX, Tag.RunCadence]]
  | .Speed => [[Tag.Extensions, Tag.TPX, Tag.Speed]]
  | .Power => [[Tag.Extensions, Tag.TPX, Tag.Watts]]

/-- The constant array of all fields generated by `derive(ConstArray)`, in
declaration order. -/
def TRK_PT_FIELD : List TrkPtField :=
  [.Latitude, .Longitude, .Altitude, .Distance, .Heartrate, .Cadence, .Speed, .Power]

/-- `Index<&TrkPtField> for Trackpoint`. -/
def Trackpoint.get (p : Trackpoint) : TrkPtField → Option ℚ
  | .Latitude => p.latitude
  | .Longitude => p.longitude
  | .Altitude => p.altitude
  | .Distance => p.distance
  | .Heartrate => p.heartrate
  | .Cadence => p.cadence
  | .Speed => p.speed
  | .Power => p.power

/-- `IndexMut<&TrkPtField> for Trackpoint`. -/
def Trackpoint.set (p : Trackpoint) : TrkPtField → Option ℚ → Trackpoint
  | .Latitude, v => { p with latitude := v }
  | .Longitude, v => { p with longitude := v }
  | .Altitude, v => { p with altitude := v }
  | .Distance, v => { p with distance := v }
  | .Heartrate, v => { p with heartrate := v }
  | .Cadence, v => { p with cadence := v }
  | .Speed, v => { p with speed := v }
  | .Power, v => { p with power := v }

/-- A hierarchical document node (the `minidom::Element` capability, with
namespaces already ignored as `is_tag` does).  The text content is modelled
by its parse result: `some q` when the node's text parses as the numeric or
timestamp value `q`, `none` when the text is present but unparsable (this
includes an empty text, which also fails the numeric parse in the
source). -/
inductive Elem where
  | node (tag : Tag) (text : Option ℚ) (children : List Elem)

/-- The tag of a node. -/
def Elem.tag : Elem → Tag
  | .node t _ _ => t

/-- The parse result of a node's own text. -/
def Elem.text : Elem → Option ℚ
  | .node _ v _ => v

/-- The children of a node. -/
def Elem.children : Elem → List Elem
  | .node _ _ c => c

/-- `Element::get_child`: the first child carrying the given tag. -/
def Elem.getChild (e : Elem) (t : Tag) : Option Elem :=
  e.children.find? (fun c => c.tag == t)

/-- `TcxElement::child_value`: descend along the tag path; an absent hop
yields `none` without failure, and a present but unparsable text is a hard
`MalformedValue` failure. -/
def childValue (e : Elem) (tags : List Tag) : Except TcxErr (Option ℚ) :=
  match tags.foldl (fun acc t => acc.bind (fun e => e.getChild t)) (some e) with
  | none => .ok none
  | some e =>
      match e.text with
      | some v => .ok (some v)
      | none => .error .malformedValue

/-- The inner loop of `Trackpoint::parse` for one field: try the alternate
tag-paths in listed order; the first `Some` wins and stops the scan, a
parse failure aborts, and a fully absent path falls through to the next. -/
def resolveField (e : Elem) : List (List Tag) → Except TcxErr (Option ℚ)
  | [] => .ok none
  | tags :: rest =>
      match childValue e tags with
      | .error er => .error er
      | .ok (some v) => .ok (some v)
      | .ok none => resolveField e rest

/-- `Trackpoint::parse`: the timestamp is mandatory, then every field is
resolved through its tag-path table. -/
def parseTrackpoint (e : Elem) : Except TcxErr Trackpoint :=
  match childValue e [Tag.Time] with
  | .error er => .error er
  | .ok none => .error .missingRequiredField
  | .ok (some t) =>
      TRK_PT_FIELD.foldlM (fun p f => (resolveField e f.get_tags).map (p.set f)) { time := t }

/-- The children of a node carrying a given tag, in document order. -/
def childrenTagged (t : Tag) (e : Elem) : List Elem :=
  e.children.filter (fun c => c.tag == t)

/-- The document walk of `Trackpoint::from_tcx`: the fixed
Activities→Activity→Lap→Track→Trackpoint nesting, skipping non-matching
nodes at each level. -/
def collectPoints (tcx : Elem) : List Elem :=
  (((([tcx].flatMap (childrenTagged .Activities)).flatMap (childrenTagged .Activity)).flatMap
        (childrenTagged .Lap)).flatMap
      (childrenTagged .Track)).flatMap
    (childrenTagged .Trackpoint)

/-- The parse-then-filter pass of `from_tcx`: parse every sample node in
order, keep those accepted by the filter, and abort at the first parse
error (errors escape the filter in the source iterator chain). -/
def parseFiltered (filter : Trackpoint → Bool) : List Elem → Except TcxErr (List Trackpoint)
  | [] => .ok []
  | e :: es =>
      match parseTrackpoint e with
      | .error er => .error er
      | .ok t =>
          if filter t then (parseFiltered filter es).map (fun ts => t :: ts)
          else parseFiltered filter es

/-- The scan of `Vec::dedup` after its first element: drop an element equal
to the last kept one. -/
def dedupFrom {α : Type} [DecidableEq α] (prev : α) : List α → List α
  | [] => []
  | b :: l => if b = prev then dedupFrom prev l else b :: dedupFrom b l

/-- `Vec::dedup`: remove all but the first element of every run of
consecutive equal elements. -/
def dedup {α : Type} [DecidableEq α] : List α → List α
  | [] => []
  | a :: l => a :: dedupFrom a l

/-- Modelled from the spec (§4.1 deduplication sentence, used as the
specification-side reference for the refinement proof): scan the sequence
and drop exactly those elements that compare fully equal to their immediate
predecessor in the original sequence, keeping everything else. -/
def specDedup {α : Type} [DecidableEq α] : Option α → List α → List α
  | _, [] => []
  | prev, b :: l =>
      if some b = prev then specDedup (some b) l else b :: specDedup (some b) l

/-- `Trackpoint::from_tcx`: walk the document, parse, filter, then remove
consecutive duplicates. -/
def fromTcx (tcx : Elem) (filter : Trackpoint → Bool) : Except TcxErr (List Trackpoint) :=
  (parseFiltered filter (collectPoints tcx)).map dedup

/-- The total of a component over the emitted windows and the open
accumulator (proof machinery for the conservation claims: any component of
`Values` that is additive under `Values.add` and scales under
`Values.mult` is conserved by the fold, because a window close hands `f`
of the increment to the closing window and `1 - f` to the next one). -/
def windowsSum (phi : Values → ℚ) (st : LoopState) : ℚ :=
  (st.windows.map (fun w => phi w.1)).sum + phi st.vals

/-- The per-pair increment record as a total function (`Values.zero` in the
fatal case, which cannot occur on a successful run). -/
def deltaD (gb : GroupBy) (p : Trackpoint × Trackpoint) : Values :=
  match Values.delta p.1 p.2 gb with
  | .ok v => v
  | .error _ => Values.zero

/-- A sample with altitude `0` and the given timestamp and cumulative
distance, used by concrete scenarios. -/
def mkPt (t d : ℚ) : Trackpoint :=
  { time := t, altitude := some 0, distance := some d }

/-- The spec scenario: five samples one second apart with distances
`0, 3.6, 7.2, 10.8, 14.4` meters. -/
def pts5 : List Trackpoint :=
  [mkPt 0 0, mkPt 1 (18 / 5), mkPt 2 (36 / 5), mkPt 3 (54 / 5), mkPt 4 (72 / 5)]

/-- Three samples with sub-second spacing (`0.6 s` apart): every per-pair
duration increment truncates to zero seconds. -/
def subSecPts : List Trackpoint :=
  [mkPt 0 0, mkPt (3 / 5) 1, mkPt (6 / 5) 2]

/-- Three samples `3 s` and `1 s` apart: with a `1 s` duration window the
first pair leaves a carried remainder of `2 s`, at least one full window
size, so the next close evaluates a negative split fraction. -/
def overshootPts : List Trackpoint :=
  [mkPt 0 0, mkPt 3 0, mkPt 4 0]

/-! Helper lemmas about the embedding. -/

theorem exceptBind_ok {ε α β : Type} (a : α) (f : α → Except ε β) :
    (Except.ok a : Except ε α).bind f = f a := rfl

theorem exceptBind_error {ε α β : Type} (e : ε) (f : α → Except ε β) :
    (Except.error e : Except ε α).bind f = Except.error e := rfl

theorem exceptMap_ok {ε α β : Type} (a : α) (f : α → β) :
    (Except.ok a : Except ε α).map f = Except.ok (f a) := rfl

theorem exceptMap_error {ε α β : Type} (e : ε) (f : α → β) :
    (Except.error e : Except ε α).map f = Except.error e := rfl

theorem numSeconds_of_den_one (q : ℚ) (h : q.den = 1) : numSeconds q = q.num := by
  simp [numSeconds, h]

theorem numSeconds_one : numSeconds 1 = 1 :=
  numSeconds_of_den_one 1 rfl

theorem numSeconds_three : numSeconds 3 = 3 :=
  numSeconds_of_den_one 3 rfl

theorem numSeconds_intCast (z : ℤ) : numSeconds (z : ℚ) = z := by
  simp [numSeconds, Rat.num_intCast, Rat.den_intCast]

theorem numSeconds_eq_floor (q : ℚ) (h : 0 ≤ q) : numSeconds q = ⌊q⌋ := by
  rw [Rat.floor_def]
  exact Int.tdiv_eq_ediv (Rat.num_nonneg.mpr h) (Int.natCast_nonneg _)

theorem numSeconds_zero_of_lt_one (q : ℚ) (h0 : 0 ≤ q) (h1 : q < 1) : numSeconds q = 0 := by
  rw [numSeconds_eq_floor q h0]
  rw [Int.floor_eq_zero_iff]
  exact ⟨h0, h1⟩

theorem qdhLoop_stop (fuel : Nat) (s : Qdh) (incD incE L : ℚ)
    (h : ¬ L ≤ s.distance + incD) : qdhLoop fuel s incD incE L = .ok (s, incD, incE) := by
  cases fuel with
  | zero => exact if_neg h
  | succ n => exact if_neg h

theorem qdhLoop_step (fuel : Nat) (s : Qdh) (incD incE L : ℚ)
    (h : L ≤ s.distance + incD) :
    qdhLoop (fuel + 1) s incD incE L =
      qdhLoop fuel
        ((s.increment ((L - s.distance) / incD * incD) ((L - s.distance) / incD * incE)).flush)
        ((1 - (L - s.distance) / incD) * incD) ((1 - (L - s.distance) / incD) * incE) L :=
  if_pos h

theorem update_stop (fuel : Nat) (s : Qdh) (d e L : ℚ) (fl : Bool)
    (h : ¬ L ≤ s.distance + d) :
    Qdh.update fuel s d e L fl =
      .ok (if fl then (s.increment d e).flush else s.increment d e) := by
  rw [Qdh.update, qdhLoop_stop fuel s d e L h, exceptMap_ok]

theorem qdhLoop_mono (fuel : Nat) :
    ∀ (more : Nat) (s : Qdh) (incD incE L : ℚ) (r : Qdh × ℚ × ℚ),
      qdhLoop fuel s incD incE L = .ok r → qdhLoop (fuel + more) s incD incE L = .ok r := by
  induction fuel with
  | zero =>
      intro more s incD incE L r h
      by_cases hc : L ≤ s.distance + incD
      · rw [qdhLoop, if_pos hc] at h
        exact absurd h (by simp)
      · rw [qdhLoop_stop 0 s incD incE L hc] at h
        rw [qdhLoop_stop (0 + more) s incD incE L hc]
        exact h
  | succ n ih =>
      intro more s incD incE L r h
      by_cases hc : L ≤ s.distance + incD
      · rw [qdhLoop_step n s incD incE L hc] at h
        have : n + 1 + more = n + more + 1 := by omega
        rw [this, qdhLoop_step (n + more) s incD incE L hc]
        exact ih more _ _ _ _ r h
      · rw [qdhLoop_stop (n + 1) s incD incE L hc] at h
        rw [qdhLoop_stop (n + 1 + more) s incD incE L hc]
        exact h

theorem qdhLoop_det {f1 f2 : Nat} {s : Qdh} {incD incE L : ℚ} {r1 r2 : Qdh × ℚ × ℚ}
    (h1 : qdhLoop f1 s incD incE L = .ok r1) (h2 : qdhLoop f2 s incD incE L = .ok r2) :
    r1 = r2 := by
  have e1 := qdhLoop_mono f1 f2 s incD incE L r1 h1
  have e2 := qdhLoop_mono f2 f1 s incD incE L r2 h2
  rw [show f2 + f1 = f1 + f2 by omega] at e2
  rw [e1] at e2
  exact Except.ok.inj e2

theorem update_det {f1 f2 : Nat} {s : Qdh} {d e L : ℚ} {fl : Bool} {r1 r2 : Qdh}
    (h1 : Qdh.update f1 s d e L fl = .ok r1) (h2 : Qdh.update f2 s d e L fl = .ok r2) :
    r1 = r2 := by
  rw [Qdh.update] at h1 h2
  cases c1 : qdhLoop f1 s d e L with
  | error er => rw [c1, exceptMap_error] at h1; exact absurd h1 (by simp)
  | ok v1 =>
      cases c2 : qdhLoop f2 s d e L with
      | error er => rw [c2, exceptMap_error] at h2; exact absurd h2 (by simp)
      | ok v2 =>
          rw [c1, exceptMap_ok] at h1
          rw [c2, exceptMap_ok] at h2
          rw [qdhLoop_det c1 c2] at h1
          rw [h1] at h2
          exact Except.ok.injEq _ _ ▸ h2

theorem delta_eq_deltaD {gb : GroupBy} {p : Trackpoint × Trackpoint} {v : Values}
    (h : Values.delta p.1 p.2 gb = .ok v) : deltaD gb p = v := by
  rw [deltaD, h]

theorem stepPair_sum (phi : Values → ℚ)
    (hadd : ∀ a b, phi (a.add b) = phi a + phi b)
    (hmul : ∀ a f, phi (a.mult f) = f * phi a)
    {fuel : Nat} {gb : GroupBy} {glen qlen : ℚ} {st st2 : LoopState}
    {p : Trackpoint × Trackpoint}
    (h : stepPair fuel gb glen qlen st p = .ok st2) :
    windowsSum phi st2 = windowsSum phi st + phi (deltaD gb p) := by
  rw [stepPair] at h
  cases hd : Values.delta p.1 p.2 gb with
  | error er => rw [hd, exceptBind_error] at h; exact absurd h (by simp)
  | ok incs =>
      rw [hd, exceptBind_ok] at h
      rw [delta_eq_deltaD hd]
      by_cases hc : glen ≤ st.vals.group_len + incs.group_len
      · rw [if_pos hc] at h
        cases hq1 : Qdh.update fuel st.qdh (incs.distance * ((glen - st.vals.group_len) / incs.group_len))
            (incs.elevation * ((glen - st.vals.group_len) / incs.group_len)) qlen true with
        | error er => rw [hq1, exceptBind_error] at h; exact absurd h (by simp)
        | ok q1 =>
            rw [hq1, exceptBind_ok] at h
            cases hq2 : Qdh.update fuel Qdh.zero
                (incs.distance * (1 - (glen - st.vals.group_len) / incs.group_len))
                (incs.elevation * (1 - (glen - st.vals.group_len) / incs.group_len)) qlen false with
            | error er => rw [hq2, exceptBind_error] at h; exact absurd h (by simp)
            | ok q2 =>
                rw [hq2, exceptBind_ok] at h
                cases h
                rw [windowsSum, windowsSum]
                simp only [List.map_append, List.sum_append, List.map_cons, List.map_nil,
                  List.sum_cons, List.sum_nil, hadd, hmul]
                ring
      · rw [if_neg hc] at h
        cases hq : Qdh.update fuel st.qdh incs.distance incs.elevation qlen false with
        | error er => rw [hq, exceptBind_error] at h; exact absurd h (by simp)
        | ok q =>
            rw [hq, exceptBind_ok] at h
            cases h
            rw [windowsSum, windowsSum]
            simp only [hadd]
            ring

theorem loopFold_sum (phi : Values → ℚ)
    (hadd : ∀ a b, phi (a.add b) = phi a + phi b)
    (hmul : ∀ a f, phi (a.mult f) = f * phi a)
    {fuel : Nat} {gb : GroupBy} {glen qlen : ℚ} :
    ∀ (ps : List (Trackpoint × Trackpoint)) (st out : LoopState),
      loopFold fuel gb glen qlen st ps = .ok out →
      windowsSum phi out = windowsSum phi st + (ps.map (fun p => phi (deltaD gb p))).sum := by
  intro ps
  induction ps with
  | nil =>
      intro st out h
      rw [loopFold] at h
      cases h
      simp
  | cons p ps ih =>
      intro st out h
      rw [loopFold] at h
      cases hs : stepPair fuel gb glen qlen st p with
      | error er => rw [hs, exceptBind_error] at h; exact absurd h (by simp)
      | ok st1 =>
          rw [hs, exceptBind_ok] at h
          have h1 := stepPair_sum phi hadd hmul hs
          have h2 := ih st1 out h
          rw [h2, h1]
          simp only [List.map_cons, List.sum_cons]
          ring

theorem tcxMain_ok {fuel : Nat} {grouping : Grouping} {qlen : ℚ}
    {points : List Trackpoint} {out : AggOut}
    (h : tcxMain fuel grouping qlen points = .ok out) :
    ∃ glen, 0 < glen ∧ aggregate fuel grouping.groupBy glen qlen points = .ok out := by
  rw [tcxMain] at h
  cases hg : groupLen grouping points with
  | error er => rw [hg, exceptBind_error] at h; exact absurd h (by simp)
  | ok glen =>
      rw [hg, exceptBind_ok] at h
      by_cases hc : (0 : ℚ) < glen
      · rw [if_pos hc] at h
        exact ⟨glen, hc, h⟩
      · rw [if_neg hc] at h
        exact absurd h (by simp)

theorem aggregate_sum (phi : Values → ℚ)
    (hadd : ∀ a b, phi (a.add b) = phi a + phi b)
    (hmul : ∀ a f, phi (a.mult f) = f * phi a)
    (hzero : phi Values.zero = 0)
    {fuel : Nat} {gb : GroupBy} {glen qlen : ℚ} {points : List Trackpoint} {out : AggOut}
    (h : aggregate fuel gb glen qlen points = .ok out) :
    (out.windows.map (fun w => phi w.1)).sum + phi out.remainder =
      ((pairsOf points).map (fun p => phi (deltaD gb p))).sum := by
  rw [aggregate] at h
  cases hf : loopFold fuel gb glen qlen ⟨Values.zero, Qdh.zero, [], []⟩ (pairsOf points) with
  | error er => rw [hf, exceptBind_error] at h; exact absurd h (by simp)
  | ok st =>
      rw [hf, exceptBind_ok] at h
      have hsum := loopFold_sum phi hadd hmul (pairsOf points) _ st hf
      simp only [windowsSum, List.map_nil, List.sum_nil, hzero, zero_add] at hsum
      by_cases hc : 1 / 1000000 * glen < st.vals.group_len
      · rw [if_pos hc] at h
        cases hq : Qdh.update fuel st.qdh 0 0 qlen true with
        | error er => rw [hq, exceptMap_error] at h; exact absurd h (by simp)
        | ok q =>
            rw [hq, exceptMap_ok] at h
            cases h
            rw [← hsum]
            simp [List.sum_append, hzero]
      · rw [if_neg hc] at h
        cases h
        rw [← hsum]

theorem mem_of_mem_pairsOf {points : List Trackpoint} {p : Trackpoint × Trackpoint}
    (h : p ∈ pairsOf points) : p.1 ∈ points ∧ p.2 ∈ points := by
  rw [pairsOf] at h
  rcases p with ⟨a, b⟩
  have := List.of_mem_zip h
  exact ⟨this.1, (List.tail_sublist points).subset this.2⟩

theorem pairs_map_sum (g : Trackpoint → ℚ) (f : Trackpoint × Trackpoint → ℚ) :
    ∀ (points : List Trackpoint), (∀ p ∈ pairsOf points, f p = g p.2 - g p.1) →
      ∀ p0 pl, points.head? = some p0 → points.getLast? = some pl →
        ((pairsOf points).map f).sum = g pl - g p0 := by
  intro points
  induction points with
  | nil =>
      intro _ p0 pl h0 _
      exact absurd h0 (by simp)
  | cons a l ih =>
      intro hf p0 pl h0 hl
      cases l with
      | nil =>
          simp only [List.head?_cons, Option.some.injEq] at h0
          simp only [List.getLast?_singleton, Option.some.injEq] at hl
          subst h0
          subst hl
          simp [pairsOf]
      | cons b rest =>
          have hpairs : pairsOf (a :: b :: rest) = (a, b) :: pairsOf (b :: rest) := rfl
          simp only [List.head?_cons, Option.some.injEq] at h0
          subst h0
          rw [List.getLast?_cons_cons] at hl
          have hmem : (a, b) ∈ pairsOf (a :: b :: rest) := by
            rw [hpairs]; exact List.mem_cons_self _ _
          have hrec := ih (fun p hp => hf p (by rw [hpairs]; exact List.mem_cons_of_mem _ hp))
            b pl rfl hl
          rw [hpairs, List.map_cons, List.sum_cons, hrec, hf (a, b) hmem]
          ring

theorem delta_fields {m n : Trackpoint} {gb : GroupBy} {v : Values}
    (h : Values.delta m n gb = .ok v) :
    v.group_len = gb.get m n ∧ v.duration = GroupBy.Duration.get m n ∧
      v.distance = GroupBy.Distance.get m n ∧
      v.power = (n.power.getD 0 + m.power.getD 0) / 2 * GroupBy.Duration.get m n ∧
      v.heartrate = (n.heartrate.getD 0 + m.heartrate.getD 0) / 2 * GroupBy.Duration.get m n := by
  cases hm : m.altitude with
  | none => rw [Values.delta, hm] at h; exact absurd h (by simp)
  | some am =>
      cases hn : n.altitude with
      | none => rw [Values.delta, hm, hn] at h; exact absurd h (by simp)
      | some an =>
          rw [Values.delta, hm, hn] at h
          cases h
          exact ⟨rfl, rfl, rfl, rfl, rfl⟩

theorem pts5_agg_w2 :
    aggregate 10 .Duration 2 50 pts5 =
      .ok ⟨[(⟨2, 2, 36 / 5, 0, 0, 0⟩, 0), (⟨2, 2, 36 / 5, 0, 0, 0⟩, 0)], Values.zero,
        [(1, 1), (1, 1)]⟩ := by
  norm_num [aggregate, pairsOf, loopFold, stepPair, Values.delta, GroupBy.get,
    Qdh.update, qdhLoop_stop, Qdh.increment, Qdh.flush, Qdh.zero, Values.zero, Values.add,
    Values.mult, mkPt, pts5, numSeconds_one, exceptBind_ok, exceptBind_error, exceptMap_ok]

theorem pts5_agg_w3 :
    aggregate 10 .Duration 3 50 pts5 =
      .ok ⟨[(⟨3, 3, 54 / 5, 0, 0, 0⟩, 0), (⟨1, 1, 18 / 5, 0, 0, 0⟩, 0)], Values.zero,
        [(1, 1)]⟩ := by
  norm_num [aggregate, pairsOf, loopFold, stepPair, Values.delta, GroupBy.get,
    Qdh.update, qdhLoop_stop, Qdh.increment, Qdh.flush, Qdh.zero, Values.zero, Values.add,
    Values.mult, mkPt, pts5, numSeconds_one, exceptBind_ok, exceptBind_error, exceptMap_ok]

theorem pts5_run_w2 :
    tcxMain 10 (.length .Duration 2) 50 pts5 =
      .ok ⟨[(⟨2, 2, 36 / 5, 0, 0, 0⟩, 0), (⟨2, 2, 36 / 5, 0, 0, 0⟩, 0)], Values.zero,
        [(1, 1), (1, 1)]⟩ := by
  have : tcxMain 10 (.length .Duration 2) 50 pts5 = aggregate 10 .Duration 2 50 pts5 := by
    norm_num [tcxMain, groupLen, Grouping.groupBy, exceptBind_ok]
  rw [this, pts5_agg_w2]

theorem pts5_run_w3 :
    tcxMain 10 (.length .Duration 3) 50 pts5 =
      .ok ⟨[(⟨3, 3, 54 / 5, 0, 0, 0⟩, 0), (⟨1, 1, 18 / 5, 0, 0, 0⟩, 0)], Values.zero,
        [(1, 1)]⟩ := by
  have : tcxMain 10 (.length .Duration 3) 50 pts5 = aggregate 10 .Duration 3 50 pts5 := by
    norm_num [tcxMain, groupLen, Grouping.groupBy, exceptBind_ok]
  rw [this, pts5_agg_w3]

/-- Claim C9: on five samples one second apart with distances
`0, 3.6, 7.2, 10.8, 14.4` m (altitude present on all), duration-based
grouping with a fixed 2 s window emits exactly two windows with distances
`[7.2, 7.2]` and silently discards the empty trailing accumulator, while a
3 s window emits a window of distance `10.8` followed by a final partial
window of distance `3.6` over 1 s, the trailing window being emitted
because its group metric `1` exceeds the `1e-6` fraction of the window
size. -/
theorem scenario_five_samples :
    tcxMain 10 (.length .Duration 2) 50 pts5 =
        .ok ⟨[(⟨2, 2, 36 / 5, 0, 0, 0⟩, 0), (⟨2, 2, 36 / 5, 0, 0, 0⟩, 0)], Values.zero,
          [(1, 1), (1, 1)]⟩ ∧
      tcxMain 10 (.length .Duration 3) 50 pts5 =
        .ok ⟨[(⟨3, 3, 54 / 5, 0, 0, 0⟩, 0), (⟨1, 1, 18 / 5, 0, 0, 0⟩, 0)], Values.zero,
          [(1, 1)]⟩ :=
  ⟨pts5_run_w2, pts5_run_w3⟩

/-- Claim C1 (amended): with whole-second timestamps, the sum of the
`distance` field over the emitted windows plus the remainder left in the
open accumulator (zero when the trailing window was emitted) equals the
last sample's distance minus the first sample's, and the same conservation
holds for `duration` against the elapsed time, for every grouping
configuration and every run the engine completes.  The amendment restricts
the duration half to whole-second timestamps: per-pair durations are
truncated to whole seconds, so sub-second spacing loses time (see the
counterexample). -/
theorem windows_conservation
    (fuel : Nat) (grouping : Grouping) (qlen : ℚ) (points : List Trackpoint) (out : AggOut)
    (hda : ∀ p ∈ points, p.distance.isSome ∧ p.altitude.isSome)
    (ht : ∀ p ∈ points, ∃ z : ℤ, p.time = (z : ℚ))
    (hmono : points.Chain' (fun a b => a.time ≤ b.time))
    (hrun : tcxMain fuel grouping qlen points = .ok out)
    (p0 pl : Trackpoint) (h0 : points.head? = some p0) (hl : points.getLast? = some pl) :
    (out.windows.map (fun w => w.1.distance)).sum + out.remainder.distance =
        pl.distance.getD 0 - p0.distance.getD 0 ∧
      (out.windows.map (fun w => w.1.duration)).sum + out.remainder.duration =
        pl.time - p0.time := by
  obtain ⟨glen, hglen, hagg⟩ := tcxMain_ok hrun
  have hok : ∀ p ∈ pairsOf points, ∃ v, Values.delta p.1 p.2 grouping.groupBy = .ok v := by
    intro p hp
    obtain ⟨hm, hn⟩ := mem_of_mem_pairsOf hp
    obtain ⟨am, ham⟩ := Option.isSome_iff_exists.mp (hda p.1 hm).2
    obtain ⟨an, han⟩ := Option.isSome_iff_exists.mp (hda p.2 hn).2
    exact ⟨_, by rw [Values.delta, ham, han]⟩
  constructor
  · have hs := aggregate_sum (fun v => v.distance) (fun a b => rfl) (fun a f => rfl) rfl hagg
    rw [hs]
    refine pairs_map_sum (fun q => q.distance.getD 0) _ points ?_ p0 pl h0 hl
    intro p hp
    obtain ⟨hm, hn⟩ := mem_of_mem_pairsOf hp
    obtain ⟨v, hv⟩ := hok p hp
    obtain ⟨dm, hdm⟩ := Option.isSome_iff_exists.mp (hda p.1 hm).1
    obtain ⟨dn, hdn⟩ := Option.isSome_iff_exists.mp (hda p.2 hn).1
    show (deltaD grouping.groupBy p).distance = p.2.distance.getD 0 - p.1.distance.getD 0
    rw [delta_eq_deltaD hv, (delta_fields hv).2.2.1, GroupBy.get, hdm, hdn]
    simp
  · have hs := aggregate_sum (fun v => v.duration) (fun a b => rfl) (fun a f => rfl) rfl hagg
    rw [hs]
    refine pairs_map_sum (fun q => q.time) _ points ?_ p0 pl h0 hl
    intro p hp
    obtain ⟨hm, hn⟩ := mem_of_mem_pairsOf hp
    obtain ⟨v, hv⟩ := hok p hp
    obtain ⟨zm, hzm⟩ := ht p.1 hm
    obtain ⟨zn, hzn⟩ := ht p.2 hn
    show (deltaD grouping.groupBy p).duration = p.2.time - p.1.time
    rw [delta_eq_deltaD hv, (delta_fields hv).2.1, GroupBy.get, hzm, hzn]
    rw [show ((zn : ℚ) - (zm : ℚ)) = ((zn - zm : ℤ) : ℚ) by push_cast; ring]
    rw [numSeconds_intCast]

/-- Witness for the amended C1 at the concrete 2 s-window scenario run
over `pts5`: `7.2 + 7.2 + 0 = 14.4 - 0` and `2 + 2 + 0 = 4 - 0`. -/
theorem windows_conservation_witness :
    (([((⟨2, 2, 36 / 5, 0, 0, 0⟩ : Values), (0 : ℚ)), (⟨2, 2, 36 / 5, 0, 0, 0⟩, 0)].map
          (fun w => w.1.distance)).sum + Values.zero.distance =
        (mkPt 4 (72 / 5)).distance.getD 0 - (mkPt 0 0).distance.getD 0) ∧
      (([((⟨2, 2, 36 / 5, 0, 0, 0⟩ : Values), (0 : ℚ)), (⟨2, 2, 36 / 5, 0, 0, 0⟩, 0)].map
          (fun w => w.1.duration)).sum + Values.zero.duration =
        (mkPt 4 (72 / 5)).time - (mkPt 0 0).time) :=
  windows_conservation 10 (.length .Duration 2) 50 pts5
    ⟨[(⟨2, 2, 36 / 5, 0, 0, 0⟩, 0), (⟨2, 2, 36 / 5, 0, 0, 0⟩, 0)], Values.zero,
      [(1, 1), (1, 1)]⟩
    (by intro p hp; fin_cases hp <;> exact ⟨rfl, rfl⟩)
    (by
      intro p hp
      fin_cases hp
      · exact ⟨0, rfl⟩
      · exact ⟨1, by norm_num [mkPt]⟩
      · exact ⟨2, by norm_num [mkPt]⟩
      · exact ⟨3, by norm_num [mkPt]⟩
      · exact ⟨4, by norm_num [mkPt]⟩)
    (by norm_num [pts5, mkPt, List.chain'_cons])
    pts5_run_w2 (mkPt 0 0) (mkPt 4 (72 / 5)) rfl rfl

/-- Counterexample to C1 as stated: with sub-second timestamps (samples
`0.6 s` apart, all carrying distance and altitude, monotonic), the engine
completes but the sum of window durations plus the discarded remainder is
`0`, while the elapsed time between first and last sample is `1.2 s`; the
truncation of each per-pair duration to whole seconds drops the time. -/
theorem conservation_subsecond_cex :
    tcxMain 10 (.length .Duration 10) 50 subSecPts =
        .ok ⟨[], ⟨0, 0, 2, 0, 0, 0⟩, []⟩ ∧
      subSecPts.all (fun p => p.distance.isSome && p.altitude.isSome) = true ∧
      subSecPts.Chain' (fun a b => a.time ≤ b.time) ∧
      subSecPts.head? = some (mkPt 0 0) ∧
      subSecPts.getLast? = some (mkPt (6 / 5) 2) ∧
      ¬ ((([] : List (Values × ℚ)).map (fun w => w.1.duration)).sum +
            (⟨0, 0, 2, 0, 0, 0⟩ : Values).duration =
          (mkPt (6 / 5) 2).time - (mkPt 0 0).time) := by
  have hns : numSeconds (3 / 5) = 0 :=
    numSeconds_zero_of_lt_one (3 / 5) (by norm_num) (by norm_num)
  refine ⟨?_, rfl, ?_, rfl, rfl, ?_⟩
  · have : tcxMain 10 (.length .Duration 10) 50 subSecPts =
        aggregate 10 .Duration 10 50 subSecPts := by
      norm_num [tcxMain, groupLen, Grouping.groupBy, exceptBind_ok]
    rw [this]
    norm_num [aggregate, pairsOf, loopFold, stepPair, Values.delta, GroupBy.get,
      Qdh.update, qdhLoop_stop, Qdh.increment, Qdh.flush, Qdh.zero, Values.zero, Values.add,
      Values.mult, mkPt, subSecPts, hns, exceptBind_ok, exceptBind_error, exceptMap_ok]
  · norm_num [subSecPts, mkPt, List.chain'_cons]
  · norm_num [mkPt]

/-- Counterexample to C3 as stated: a pair whose second sample has no
distance is processed successfully — `Values::delta` returns a plain value
whose distance increment is the default `0`, instead of failing with a
`MissingRequiredField` error. -/
theorem distance_missing_cex :
    Values.delta (mkPt 0 5) { time := 1, altitude := some 0 } .Distance =
      .ok ⟨0, 1, 0, 0, 0, 0⟩ := by
  norm_num [Values.delta, GroupBy.get, mkPt, numSeconds_one]

/-- Claim C3 (amended): when either sample of a pair lacks the distance
field, the distance increment of `GroupBy::get` evaluates to the default
`0` (absent `n.distance` hits `unwrap_or(0.0)`; absent `m.distance` hits
`unwrap_or(d)` giving `d - d`); no error is raised. -/
theorem distance_missing_defaults_zero (m n : Trackpoint)
    (h : m.distance = none ∨ n.distance = none) :
    GroupBy.get .Distance m n = 0 := by
  rw [GroupBy.get]
  rcases h with h | h
  · cases hn : n.distance with
    | none => simp
    | some dn => simp [h, hn]
  · simp [h]

/-- Witness for the amended C3: first sample without distance, increment
`0`. -/
theorem distance_missing_defaults_zero_witness :
    GroupBy.get .Distance { time := 0 } (mkPt 1 5) = 0 :=
  distance_missing_defaults_zero { time := 0 } (mkPt 1 5) (Or.inl rfl)

/-- Counterexample to C4 as stated: on empty input under count-based
sizing, the aggregation path aborts through the `expect("No points")`
panic — modelled by the `Halt.fatal` outcome — instead of returning a
recoverable `EmptyInput` result value. -/
theorem error_recoverable_cex :
    tcxMain 10 (.count .Duration 2) 50 [] = .error Halt.fatal := by
  rfl

theorem delta_fatal {m n : Trackpoint} {gb : GroupBy}
    (h : m.altitude = none ∨ n.altitude = none) :
    Values.delta m n gb = .error .fatal := by
  rcases h with hm | hn
  · cases hn : n.altitude with
    | none => rw [Values.delta, hm, hn]
    | some an => rw [Values.delta, hm, hn]
  · cases hm : m.altitude with
    | none => rw [Values.delta, hm, hn]
    | some am => rw [Values.delta, hm, hn]

theorem delta_ok_isSome {m n : Trackpoint} {gb : GroupBy} {v : Values}
    (h : Values.delta m n gb = .ok v) :
    m.altitude.isSome ∧ n.altitude.isSome := by
  cases hm : m.altitude with
  | none => rw [delta_fatal (Or.inl hm)] at h; exact absurd h (by simp)
  | some am =>
      cases hn : n.altitude with
      | none => rw [delta_fatal (Or.inr hn)] at h; exact absurd h (by simp)
      | some an => simp [hm, hn]

theorem loopFold_delta_ok {fuel : Nat} {gb : GroupBy} {glen qlen : ℚ} :
    ∀ (ps : List (Trackpoint × Trackpoint)) (st out : LoopState),
      loopFold fuel gb glen qlen st ps = .ok out →
      ∀ p ∈ ps, ∃ v, Values.delta p.1 p.2 gb = .ok v := by
  intro ps
  induction ps with
  | nil =>
      intro st out _ p hp
      exact absurd hp (List.not_mem_nil p)
  | cons q ps ih =>
      intro st out h p hp
      rw [loopFold] at h
      cases hs : stepPair fuel gb glen qlen st q with
      | error er => rw [hs, exceptBind_error] at h; exact absurd h (by simp)
      | ok st1 =>
          rw [hs, exceptBind_ok] at h
          rcases List.mem_cons.mp hp with rfl | hmem
          · rw [stepPair] at hs
            cases hd : Values.delta p.1 p.2 gb with
            | error er => rw [hd, exceptBind_error] at hs; exact absurd hs (by simp)
            | ok v => exact ⟨v, rfl⟩
          · exact ih st1 out h p hmem

/-- Claim C4 (amended): only the parse-level error conditions are returned
as recoverable result values — a sample without a timestamp yields the
`MissingRequiredField` result, a present but unparsable timestamp text the
`MalformedValue` result; the aggregation-side conditions are process-fatal
panics: empty input under count-based sizing (`expect("No points")`), any
non-positive window size (`assert!(group_len > 0.0)`), and a missing
altitude on either sample of any processed pair (`expect` in
`Values::delta` aborts the step, so a run over a pair list containing such
a pair never returns a result). -/
theorem error_handling_amended :
    (∀ (fuel : Nat) (gb : GroupBy) (c : ℕ) (qlen : ℚ),
        tcxMain fuel (.count gb c) qlen [] = .error .fatal) ∧
      (∀ (fuel : Nat) (gb : GroupBy) (len qlen : ℚ) (points : List Trackpoint),
        len ≤ 0 → tcxMain fuel (.length gb len) qlen points = .error .fatal) ∧
      (∀ (fuel : Nat) (gb : GroupBy) (glen qlen : ℚ) (st : LoopState)
          (p : Trackpoint × Trackpoint),
        p.1.altitude = none ∨ p.2.altitude = none →
        stepPair fuel gb glen qlen st p = .error .fatal) ∧
      (∀ (fuel : Nat) (gb : GroupBy) (glen qlen : ℚ) (points : List Trackpoint)
          (out : AggOut), aggregate fuel gb glen qlen points = .ok out →
        ∀ p ∈ pairsOf points, p.1.altitude.isSome ∧ p.2.altitude.isSome) ∧
      (∀ e : Elem, childValue e [Tag.Time] = .ok none →
        parseTrackpoint e = .error .missingRequiredField) ∧
      (∀ (e c : Elem), e.getChild Tag.Time = some c → c.text = none →
        parseTrackpoint e = .error .malformedValue) := by
  refine ⟨?_, ?_, ?_, ?_, ?_, ?_⟩
  · intro fuel gb c qlen
    rfl
  · intro fuel gb len qlen points hlen
    rw [tcxMain]
    rw [show groupLen (.length gb len) points = .ok len from rfl]
    rw [exceptBind_ok, if_neg (not_lt.mpr hlen)]
  · intro fuel gb glen qlen st p halt
    rw [stepPair, delta_fatal halt, exceptBind_error]
  · intro fuel gb glen qlen points out h p hp
    rw [aggregate] at h
    cases hf : loopFold fuel gb glen qlen ⟨Values.zero, Qdh.zero, [], []⟩ (pairsOf points) with
    | error er => rw [hf, exceptBind_error] at h; exact absurd h (by simp)
    | ok st =>
        obtain ⟨v, hv⟩ := loopFold_delta_ok (pairsOf points) _ st hf p hp
        exact delta_ok_isSome hv
  · intro e h
    rw [parseTrackpoint, h]
  · intro e c hc hct
    have hcv : childValue e [Tag.Time] = .error .malformedValue := by
      rw [childValue]
      rw [show List.foldl (fun acc t => acc.bind (fun e => e.getChild t)) (some e) [Tag.Time] =
        e.getChild Tag.Time from rfl]
      simp only [hc, hct]
    rw [parseTrackpoint, hcv]

/-- Witness for the amended C4: each branch evaluated at a concrete
input — empty count-sized input, zero window size, a missing-altitude
pair rejected at any loop state, altitudes present on a pair of a
successful run, a time-less sample node, and an unparsable timestamp
text. -/
theorem error_handling_amended_witness :
    tcxMain 10 (.count .Duration 2) 50 [] = .error .fatal ∧
      tcxMain 10 (.length .Duration 0) 50 pts5 = .error .fatal ∧
      stepPair 10 .Duration 5 50 ⟨Values.zero, Qdh.zero, [], []⟩
          ({ time := 0, distance := some 0 }, mkPt 1 1) = .error .fatal ∧
      ((mkPt 0 0).altitude.isSome ∧ (mkPt 1 (18 / 5)).altitude.isSome) ∧
      parseTrackpoint (.node .Trackpoint none []) = .error .missingRequiredField ∧
      parseTrackpoint (.node .Trackpoint none [.node .Time none []]) =
        .error .malformedValue :=
  ⟨error_handling_amended.1 10 .Duration 2 50,
   error_handling_amended.2.1 10 .Duration 0 50 pts5 le_rfl,
   error_handling_amended.2.2.1 10 .Duration 5 50 ⟨Values.zero, Qdh.zero, [], []⟩
     ({ time := 0, distance := some 0 }, mkPt 1 1) (Or.inl rfl),
   error_handling_amended.2.2.2.1 10 .Duration 2 50 pts5
     ⟨[(⟨2, 2, 36 / 5, 0, 0, 0⟩, 0), (⟨2, 2, 36 / 5, 0, 0, 0⟩, 0)], Values.zero,
       [(1, 1), (1, 1)]⟩ pts5_agg_w2 (mkPt 0 0, mkPt 1 (18 / 5))
     (List.mem_cons_self _ _),
   error_handling_amended.2.2.2.2.1 (.node .Trackpoint none []) rfl,
   error_handling_amended.2.2.2.2.2 (.node .Trackpoint none [.node .Time none []])
     (.node .Time none []) rfl rfl⟩

theorem stepPair_fracs {fuel : Nat} {gb : GroupBy} {glen qlen : ℚ} {st st2 : LoopState}
    {p : Trackpoint × Trackpoint}
    (hlt : st.vals.group_len < glen)
    (hinc : (deltaD gb p).group_len ≤ glen)
    (h : stepPair fuel gb glen qlen st p = .ok st2) :
    st2.vals.group_len < glen ∧
      ∀ fr ∈ st2.fracs, fr ∈ st.fracs ∨ (0 < fr.1 ∧ fr.1 ≤ 1 ∧ 0 < fr.2) := by
  rw [stepPair] at h
  cases hd : Values.delta p.1 p.2 gb with
  | error er => rw [hd, exceptBind_error] at h; exact absurd h (by simp)
  | ok incs =>
      rw [hd, exceptBind_ok] at h
      rw [delta_eq_deltaD hd] at hinc
      by_cases hc : glen ≤ st.vals.group_len + incs.group_len
      · rw [if_pos hc] at h
        have hpos : 0 < incs.group_len := by linarith
        have hne : incs.group_len ≠ 0 := ne_of_gt hpos
        cases hq1 : Qdh.update fuel st.qdh
            (incs.distance * ((glen - st.vals.group_len) / incs.group_len))
            (incs.elevation * ((glen - st.vals.group_len) / incs.group_len)) qlen true with
        | error er => rw [hq1, exceptBind_error] at h; exact absurd h (by simp)
        | ok q1 =>
            rw [hq1, exceptBind_ok] at h
            cases hq2 : Qdh.update fuel Qdh.zero
                (incs.distance * (1 - (glen - st.vals.group_len) / incs.group_len))
                (incs.elevation * (1 - (glen - st.vals.group_len) / incs.group_len))
                qlen false with
            | error er => rw [hq2, exceptBind_error] at h; exact absurd h (by simp)
            | ok q2 =>
                rw [hq2, exceptBind_ok] at h
                cases h
                constructor
                · show (1 - (glen - st.vals.group_len) / incs.group_len) * incs.group_len < glen
                  rw [sub_mul, one_mul, div_mul_cancel₀ _ hne]
                  linarith
                · intro fr hfr
                  rw [List.mem_append] at hfr
                  rcases hfr with hfr | hfr
                  · exact Or.inl hfr
                  · rw [List.mem_singleton] at hfr
                    subst hfr
                    refine Or.inr ⟨div_pos (by linarith) hpos, ?_, hpos⟩
                    rw [div_le_one hpos]
                    linarith
      · rw [if_neg hc] at h
        cases hq : Qdh.update fuel st.qdh incs.distance incs.elevation qlen false with
        | error er => rw [hq, exceptBind_error] at h; exact absurd h (by simp)
        | ok q =>
            rw [hq, exceptBind_ok] at h
            cases h
            refine ⟨?_, fun fr hfr => Or.inl hfr⟩
            show st.vals.group_len + incs.group_len < glen
            exact lt_of_not_le hc

theorem loopFold_fracs {fuel : Nat} {gb : GroupBy} {glen qlen : ℚ} :
    ∀ (ps : List (Trackpoint × Trackpoint)) (st out : LoopState),
      loopFold fuel gb glen qlen st ps = .ok out →
      st.vals.group_len < glen →
      (∀ p ∈ ps, (deltaD gb p).group_len ≤ glen) →
      out.vals.group_len < glen ∧
        ∀ fr ∈ out.fracs, fr ∈ st.fracs ∨ (0 < fr.1 ∧ fr.1 ≤ 1 ∧ 0 < fr.2) := by
  intro ps
  induction ps with
  | nil =>
      intro st out h hlt _
      rw [loopFold] at h
      cases h
      exact ⟨hlt, fun fr hfr => Or.inl hfr⟩
  | cons p ps ih =>
      intro st out h hlt hps
      rw [loopFold] at h
      cases hs : stepPair fuel gb glen qlen st p with
      | error er => rw [hs, exceptBind_error] at h; exact absurd h (by simp)
      | ok st1 =>
          rw [hs, exceptBind_ok] at h
          obtain ⟨hlt1, hfr1⟩ := stepPair_fracs hlt (hps p (List.mem_cons_self _ _)) hs
          obtain ⟨hlt2, hfr2⟩ := ih st1 out h hlt1
            (fun q hq => hps q (List.mem_cons_of_mem _ hq))
          refine ⟨hlt2, fun fr hfr => ?_⟩
          rcases hfr2 fr hfr with hin | hP
          · exact hfr1 fr hin
          · exact Or.inr hP

/-- Claim C5 (amended): provided every per-pair group-metric increment is
at most the window size, then whenever a window closes the recorded split
fraction satisfies `0 < f ≤ 1` and its divisor (the pair's group-metric
increment) is strictly positive.  The amendment adds the increment bound:
a single increment larger than the window can leave a carried remainder of
at least one window size, after which the next close computes `f ≤ 0` (see
the counterexample). -/
theorem split_fraction_bounds
    (fuel : Nat) (gb : GroupBy) (glen qlen : ℚ) (points : List Trackpoint) (out : AggOut)
    (hglen : 0 < glen)
    (hinc : ∀ p ∈ pairsOf points, GroupBy.get gb p.1 p.2 ≤ glen)
    (hrun : aggregate fuel gb glen qlen points = .ok out) :
    ∀ fr ∈ out.fracs, 0 < fr.1 ∧ fr.1 ≤ 1 ∧ 0 < fr.2 := by
  have hincD : ∀ p ∈ pairsOf points, (deltaD gb p).group_len ≤ glen := by
    intro p hp
    cases hd : Values.delta p.1 p.2 gb with
    | error er =>
        rw [deltaD, hd]
        show (0 : ℚ) ≤ glen
        exact le_of_lt hglen
    | ok v =>
        rw [delta_eq_deltaD hd, (delta_fields hd).1]
        exact hinc p hp
  rw [aggregate] at hrun
  cases hf : loopFold fuel gb glen qlen ⟨Values.zero, Qdh.zero, [], []⟩ (pairsOf points) with
  | error er => rw [hf, exceptBind_error] at hrun; exact absurd hrun (by simp)
  | ok st =>
      rw [hf, exceptBind_ok] at hrun
      obtain ⟨-, hfr⟩ := loopFold_fracs (pairsOf points) _ st hf hglen hincD
      have hout : out.fracs = st.fracs := by
        by_cases hc : 1 / 1000000 * glen < st.vals.group_len
        · rw [if_pos hc] at hrun
          cases hq : Qdh.update fuel st.qdh 0 0 qlen true with
          | error er => rw [hq, exceptMap_error] at hrun; exact absurd hrun (by simp)
          | ok q => rw [hq, exceptMap_ok] at hrun; cases hrun; rfl
        · rw [if_neg hc] at hrun; cases hrun; rfl
      rw [hout]
      intro fr hfr2
      rcases hfr fr hfr2 with hin | hP
      · exact absurd hin (List.not_mem_nil fr)
      · exact hP

/-- Witness for the amended C5: the 2 s-window run over `pts5` records the
split fraction `1` with divisor `1` at each close, and `0 < 1 ≤ 1`. -/
theorem split_fraction_bounds_witness :
    0 < (1 : ℚ) ∧ (1 : ℚ) ≤ 1 ∧ 0 < (1 : ℚ) :=
  split_fraction_bounds 10 .Duration 2 50 pts5
    ⟨[(⟨2, 2, 36 / 5, 0, 0, 0⟩, 0), (⟨2, 2, 36 / 5, 0, 0, 0⟩, 0)], Values.zero,
      [(1, 1), (1, 1)]⟩
    (by norm_num)
    (by
      intro p hp
      fin_cases hp <;>
        norm_num [GroupBy.get, mkPt, numSeconds_one])
    pts5_agg_w2 (1, 1) (by simp)

/-- Counterexample to C5 as stated: three samples `3 s` and `1 s` apart
with a `1 s` duration window (an engine-accepted configuration).  The
first pair closes with fraction `1/3` and carries a `2 s` remainder — a
full window size — so the second pair closes with fraction `-1`, violating
`0 < f`. -/
theorem split_fraction_cex :
    aggregate 10 .Duration 1 50 overshootPts =
        .ok ⟨[(⟨1, 1, 0, 0, 0, 0⟩, 0), (⟨1, 1, 0, 0, 0, 0⟩, 0), (⟨2, 2, 0, 0, 0, 0⟩, 0)],
          Values.zero, [(1 / 3, 3), (-1, 1)]⟩ ∧
      (0 : ℚ) < 1 ∧ ¬ (0 < (-1 : ℚ)) := by
  refine ⟨?_, by norm_num, by norm_num⟩
  have hns3 : numSeconds 3 = 3 := numSeconds_three
  norm_num [aggregate, pairsOf, loopFold, stepPair, Values.delta, GroupBy.get,
    Qdh.update, qdhLoop_stop, Qdh.increment, Qdh.flush, Qdh.zero, Values.zero, Values.add,
    Values.mult, mkPt, overshootPts, numSeconds_one, hns3, exceptBind_ok, exceptBind_error,
    exceptMap_ok]

/-- Claim C10: the per-pair duration increment is the elapsed time
truncated to a whole number of seconds (`num_seconds`), so for
non-decreasing timestamps it is the floor of the elapsed time; in
particular a pair less than one second apart contributes duration,
time-weighted power and time-weighted heart-rate increments of exactly
zero. -/
theorem duration_truncation (m n : Trackpoint) (h : m.time ≤ n.time) :
    GroupBy.get .Duration m n = (⌊n.time - m.time⌋ : ℚ) ∧
      (n.time - m.time < 1 → ∀ (gb : GroupBy) (v : Values),
        Values.delta m n gb = .ok v →
        v.duration = 0 ∧ v.power = 0 ∧ v.heartrate = 0) := by
  have h0 : (0 : ℚ) ≤ n.time - m.time := by linarith
  constructor
  · rw [GroupBy.get, numSeconds_eq_floor _ h0]
  · intro h1 gb v hv
    have hz : numSeconds (n.time - m.time) = 0 := numSeconds_zero_of_lt_one _ h0 h1
    have hdur : GroupBy.Duration.get m n = 0 := by
      rw [GroupBy.get, hz, Int.cast_zero]
    obtain ⟨-, hd, -, hp, hh⟩ := delta_fields hv
    rw [hd, hp, hh, hdur, mul_zero, mul_zero]
    exact ⟨rfl, rfl, rfl⟩

/-- Witness for C10 at a pair `0.5 s` apart: the duration increment is
`⌊0.5⌋ = 0` and all time-weighted increments vanish. -/
theorem duration_truncation_witness :
    GroupBy.get .Duration (mkPt 0 0) (mkPt (1 / 2) 1) = (⌊(mkPt (1 / 2) 1).time - (mkPt 0 0).time⌋ : ℚ) ∧
      ((⟨0, 0, 1, 0, 0, 0⟩ : Values).duration = 0 ∧ (⟨0, 0, 1, 0, 0, 0⟩ : Values).power = 0 ∧
        (⟨0, 0, 1, 0, 0, 0⟩ : Values).heartrate = 0) := by
  have h := duration_truncation (mkPt 0 0) (mkPt (1 / 2) 1) (by norm_num [mkPt])
  refine ⟨h.1, h.2 (by norm_num [mkPt]) .Duration ⟨0, 0, 1, 0, 0, 0⟩ ?_⟩
  have hns : numSeconds (1 / 2) = 0 :=
    numSeconds_zero_of_lt_one (1 / 2) (by norm_num) (by norm_num)
  norm_num [Values.delta, GroupBy.get, mkPt, hns]

/-- Claim C2 (code bug): with a zero QDH threshold and any positive
distance increment, the `while` loop of `Qdh::update` never terminates —
each pass computes the fraction `f = (0 - 0) / inc = 0`, flushes an empty
bucket and leaves the increment unchanged — so the fuel-indexed model
reports exhaustion for every fuel bound.  The spec intends a zero
threshold to flush every increment immediately. -/
theorem qdh_update_zero_threshold_diverges (fuel : Nat) :
    Qdh.update fuel Qdh.zero 1 0 0 true = .error .nofuel := by
  have hloop : ∀ k : Nat, qdhLoop k Qdh.zero 1 0 0 = .error .nofuel := by
    intro k
    induction k with
    | zero =>
        rw [qdhLoop]
        exact if_pos (by norm_num [Qdh.zero])
    | succ n ih =>
        rw [qdhLoop_step n Qdh.zero 1 0 0 (by norm_num [Qdh.zero])]
        have hst : ((Qdh.zero.increment ((0 - Qdh.zero.distance) / 1 * 1)
            ((0 - Qdh.zero.distance) / 1 * 0)).flush) = Qdh.zero := by
          norm_num [Qdh.increment, Qdh.flush, Qdh.zero]
        have h1 : (1 - (0 - Qdh.zero.distance) / 1) * 1 = (1 : ℚ) := by
          norm_num [Qdh.zero]
        have h2 : (1 - (0 - Qdh.zero.distance) / 1) * 0 = (0 : ℚ) := by
          norm_num
        rw [hst, h1, h2]
        exact ih
  rw [Qdh.update, hloop fuel, exceptMap_error]

/-- Counterexample to C6 as stated: over threshold `10` from the zero
state, the single increment `(20, 10)` contributes `50` to the QDH score,
but splitting it into `(10, 0)` then `(10, 10)` — summing to the same
distance and elevation — contributes `100`: the split moves elevation
across a bucket boundary, so only distance-proportional splits are
neutral. -/
theorem qdh_additivity_cex :
    Qdh.update 5 Qdh.zero 20 10 10 false = .ok ⟨50, 0, 0⟩ ∧
      (Qdh.update 5 Qdh.zero 10 0 10 false).bind
          (fun s => Qdh.update 5 s 10 10 10 false) = .ok ⟨100, 0, 0⟩ ∧
      (10 : ℚ) + 10 = 20 ∧ (0 : ℚ) + 10 = 10 ∧
      (⟨50, 0, 0⟩ : Qdh) ≠ ⟨100, 0, 0⟩ := by
  refine ⟨?_, ?_, by norm_num, by norm_num, by simp⟩
  · have l1 : qdhLoop 5 Qdh.zero 20 10 10 = qdhLoop 4 ⟨25, 0, 0⟩ 10 5 10 := by
      rw [qdhLoop_step 4 Qdh.zero 20 10 10 (by norm_num [Qdh.zero])]
      norm_num [Qdh.zero, Qdh.increment, Qdh.flush]
    have l2 : qdhLoop 4 (⟨25, 0, 0⟩ : Qdh) 10 5 10 = qdhLoop 3 ⟨50, 0, 0⟩ 0 0 10 := by
      rw [qdhLoop_step 3 ⟨25, 0, 0⟩ 10 5 10 (by norm_num)]
      norm_num [Qdh.increment, Qdh.flush]
    have l3 : qdhLoop 3 (⟨50, 0, 0⟩ : Qdh) 0 0 10 = .ok (⟨50, 0, 0⟩, 0, 0) :=
      qdhLoop_stop 3 ⟨50, 0, 0⟩ 0 0 10 (by norm_num)
    rw [Qdh.update, l1, l2, l3, exceptMap_ok]
    norm_num [Qdh.increment]
  · have r1 : qdhLoop 5 Qdh.zero 10 0 10 = qdhLoop 4 ⟨0, 0, 0⟩ 0 0 10 := by
      rw [qdhLoop_step 4 Qdh.zero 10 0 10 (by norm_num [Qdh.zero])]
      norm_num [Qdh.zero, Qdh.increment, Qdh.flush]
    have r2 : qdhLoop 4 (⟨0, 0, 0⟩ : Qdh) 0 0 10 = .ok (⟨0, 0, 0⟩, 0, 0) :=
      qdhLoop_stop 4 ⟨0, 0, 0⟩ 0 0 10 (by norm_num)
    have hfirst : Qdh.update 5 Qdh.zero 10 0 10 false = .ok ⟨0, 0, 0⟩ := by
      rw [Qdh.update, r1, r2, exceptMap_ok]
      norm_num [Qdh.increment]
    rw [hfirst, exceptBind_ok]
    have r3 : qdhLoop 5 (⟨0, 0, 0⟩ : Qdh) 10 10 10 = qdhLoop 4 ⟨100, 0, 0⟩ 0 0 10 := by
      rw [qdhLoop_step 4 ⟨0, 0, 0⟩ 10 10 10 (by norm_num)]
      norm_num [Qdh.increment, Qdh.flush]
    have r4 : qdhLoop 4 (⟨100, 0, 0⟩ : Qdh) 0 0 10 = .ok (⟨100, 0, 0⟩, 0, 0) :=
      qdhLoop_stop 4 ⟨100, 0, 0⟩ 0 0 10 (by norm_num)
    rw [Qdh.update, r3, r4, exceptMap_ok]
    norm_num [Qdh.increment]

theorem update_zero_fuel_guard {s : Qdh} {d e L : ℚ} {fl : Bool}
    (hguard : L ≤ s.distance + d) :
    Qdh.update 0 s d e L fl = .error .nofuel := by
  rw [Qdh.update, qdhLoop, if_pos hguard, exceptMap_error]

theorem update_step_sigma (fuel : Nat) (s : Qdh) (d sg L : ℚ) (fl : Bool)
    (hL : 0 < L) (hguard : L ≤ s.distance + d) (hlt : s.distance < L) :
    Qdh.update (fuel + 1) s d (sg * d) L fl =
      Qdh.update fuel
        ⟨s.qdh + (s.elevation + sg * (L - s.distance)) *
            (s.elevation + sg * (L - s.distance)) / L * 10, 0, 0⟩
        (s.distance + d - L) (sg * (s.distance + d - L)) L fl := by
  have hd : d ≠ 0 := by
    intro h
    rw [h, add_zero] at hguard
    exact absurd hguard (not_le.mpr hlt)
  rw [Qdh.update, Qdh.update, qdhLoop_step fuel s d (sg * d) L hguard]
  have hst : (s.increment ((L - s.distance) / d * d) ((L - s.distance) / d * (sg * d))).flush =
      (⟨s.qdh + (s.elevation + sg * (L - s.distance)) *
          (s.elevation + sg * (L - s.distance)) / L * 10, 0, 0⟩ : Qdh) := by
    have hdist : s.distance + (L - s.distance) / d * d = L := by
      rw [div_mul_cancel₀ _ hd]
      ring
    have helev : s.elevation + (L - s.distance) / d * (sg * d) =
        s.elevation + sg * (L - s.distance) := by
      field_simp
      ring
    rw [Qdh.increment, Qdh.flush]
    simp only [hdist, helev]
    rw [if_pos hL]
  have hrem : (1 - (L - s.distance) / d) * d = s.distance + d - L := by
    rw [sub_mul, one_mul, div_mul_cancel₀ _ hd]
    ring
  have hrel : (1 - (L - s.distance) / d) * (sg * d) = sg * (s.distance + d - L) := by
    field_simp
    ring
  rw [hst, hrem, hrel]

/-- Claim C6 (amended): splitting an increment into two sequential parts
is neutral for the cumulative QDH score when the split is
distance-proportional — both parts carry elevation at the same rate `sg`
per unit distance as the whole — for every positive threshold, every
accumulator state with sub-threshold distance, and all fuel bounds whose
runs complete. -/
theorem qdh_split_proportional (L : ℚ) (hL : 0 < L) :
    ∀ (fuel1 fuel2 fuel3 : Nat) (s : Qdh) (d1 d2 sg : ℚ) (s1 s2 s3 : Qdh),
      0 ≤ d1 → 0 ≤ d2 → s.distance < L →
      Qdh.update fuel1 s d1 (sg * d1) L false = .ok s1 →
      Qdh.update fuel2 s1 d2 (sg * d2) L false = .ok s2 →
      Qdh.update fuel3 s (d1 + d2) (sg * (d1 + d2)) L false = .ok s3 →
      s2 = s3 := by
  have noLoop : ∀ (fuel2 fuel3 : Nat) (s : Qdh) (d1 d2 sg : ℚ) (s1 s2 s3 : Qdh),
      0 ≤ d2 → s.distance < L → ¬ L ≤ s.distance + d1 →
      s1 = s.increment d1 (sg * d1) →
      Qdh.update fuel2 s1 d2 (sg * d2) L false = .ok s2 →
      Qdh.update fuel3 s (d1 + d2) (sg * (d1 + d2)) L false = .ok s3 →
      s2 = s3 := by
    intro fuel2 fuel3 s d1 d2 sg s1 s2 s3 hd2 hslt hng hs1 h2 h3
    have hs1d : s1.distance = s.distance + d1 := by rw [hs1]; rfl
    have hs1q : s1.qdh = s.qdh := by rw [hs1]; rfl
    have hs1e : s1.elevation = s.elevation + sg * d1 := by rw [hs1]; rfl
    by_cases hg2 : L ≤ s.distance + d1 + d2
    · have hg2a : L ≤ s1.distance + d2 := by rw [hs1d]; exact hg2
      have hg3 : L ≤ s.distance + (d1 + d2) := by linarith
      have hlt1 : s1.distance < L := by
        rw [hs1d]; exact lt_of_not_le hng
      cases fuel2 with
      | zero => rw [update_zero_fuel_guard hg2a] at h2; exact absurd h2 (by simp)
      | succ k2 =>
          cases fuel3 with
          | zero => rw [update_zero_fuel_guard hg3] at h3; exact absurd h3 (by simp)
          | succ k3 =>
              rw [update_step_sigma k2 s1 d2 sg L false hL hg2a hlt1] at h2
              rw [update_step_sigma k3 s (d1 + d2) sg L false hL hg3 hslt] at h3
              have hq : s1.qdh + (s1.elevation + sg * (L - s1.distance)) *
                    (s1.elevation + sg * (L - s1.distance)) / L * 10 =
                  s.qdh + (s.elevation + sg * (L - s.distance)) *
                    (s.elevation + sg * (L - s.distance)) / L * 10 := by
                rw [hs1q, hs1e, hs1d]
                ring_nf
              have hr : s1.distance + d2 - L = s.distance + (d1 + d2) - L := by
                rw [hs1d]; ring
              rw [hq, hr] at h2
              exact update_det h2 h3
    · have hng3 : ¬ L ≤ s.distance + (d1 + d2) := by
        intro hcon
        exact hg2 (by linarith)
      have hng2 : ¬ L ≤ s1.distance + d2 := by
        rw [hs1d]
        intro hcon
        exact hg2 (by linarith)
      rw [update_stop fuel2 s1 d2 (sg * d2) L false hng2] at h2
      rw [update_stop fuel3 s (d1 + d2) (sg * (d1 + d2)) L false hng3] at h3
      cases h2
      cases h3
      rw [hs1, Qdh.increment, Qdh.increment, Qdh.increment]
      have e1 : s.distance + d1 + d2 = s.distance + (d1 + d2) := by ring
      have e2 : s.elevation + sg * d1 + sg * d2 = s.elevation + sg * (d1 + d2) := by ring
      rw [e1, e2]
  intro fuel1
  induction fuel1 with
  | zero =>
      intro fuel2 fuel3 s d1 d2 sg s1 s2 s3 hd1 hd2 hslt h1 h2 h3
      by_cases hg : L ≤ s.distance + d1
      · rw [update_zero_fuel_guard hg] at h1
        exact absurd h1 (by simp)
      · rw [update_stop 0 s d1 (sg * d1) L false hg] at h1
        exact noLoop fuel2 fuel3 s d1 d2 sg s1 s2 s3 hd2 hslt hg
          (Except.ok.inj h1).symm h2 h3
  | succ k ih =>
      intro fuel2 fuel3 s d1 d2 sg s1 s2 s3 hd1 hd2 hslt h1 h2 h3
      by_cases hg : L ≤ s.distance + d1
      · have hg3 : L ≤ s.distance + (d1 + d2) := by linarith
        cases fuel3 with
        | zero => rw [update_zero_fuel_guard hg3] at h3; exact absurd h3 (by simp)
        | succ k3 =>
            rw [update_step_sigma k s d1 sg L false hL hg hslt] at h1
            rw [update_step_sigma k3 s (d1 + d2) sg L false hL hg3 hslt] at h3
            have hr3 : s.distance + (d1 + d2) - L = (s.distance + d1 - L) + d2 := by ring
            rw [hr3] at h3
            exact ih fuel2 k3 _ (s.distance + d1 - L) d2 sg s1 s2 s3
              (by linarith) hd2 hL h1 h2 h3
      · rw [update_stop (k + 1) s d1 (sg * d1) L false hg] at h1
        exact noLoop fuel2 fuel3 s d1 d2 sg s1 s2 s3 hd2 hslt hg
          (Except.ok.inj h1).symm h2 h3

/-- Witness for the amended C6: threshold `10`, proportional split of
`(20, 10)` into `(10, 5)` and `(10, 5)` (`sg = 1/2`); both orders
contribute `50`. -/
theorem qdh_split_proportional_witness :
    (⟨50, 0, 0⟩ : Qdh) = ⟨50, 0, 0⟩ :=
  qdh_split_proportional 10 (by norm_num) 5 5 5 Qdh.zero 10 10 (1 / 2)
    ⟨25, 0, 0⟩ ⟨50, 0, 0⟩ ⟨50, 0, 0⟩ (by norm_num) (by norm_num)
    (by norm_num [Qdh.zero])
    (by
      have r1 : qdhLoop 5 Qdh.zero 10 (1 / 2 * 10) 10 = qdhLoop 4 ⟨25, 0, 0⟩ 0 0 10 := by
        rw [qdhLoop_step 4 Qdh.zero 10 (1 / 2 * 10) 10 (by norm_num [Qdh.zero])]
        norm_num [Qdh.zero, Qdh.increment, Qdh.flush]
      rw [Qdh.update, r1, qdhLoop_stop 4 ⟨25, 0, 0⟩ 0 0 10 (by norm_num), exceptMap_ok]
      norm_num [Qdh.increment])
    (by
      have r1 : qdhLoop 5 (⟨25, 0, 0⟩ : Qdh) 10 (1 / 2 * 10) 10 =
          qdhLoop 4 ⟨50, 0, 0⟩ 0 0 10 := by
        rw [qdhLoop_step 4 ⟨25, 0, 0⟩ 10 (1 / 2 * 10) 10 (by norm_num)]
        norm_num [Qdh.increment, Qdh.flush]
      rw [Qdh.update, r1, qdhLoop_stop 4 ⟨50, 0, 0⟩ 0 0 10 (by norm_num), exceptMap_ok]
      norm_num [Qdh.increment])
    (by
      have r1 : qdhLoop 5 Qdh.zero (10 + 10) (1 / 2 * (10 + 10)) 10 =
          qdhLoop 4 ⟨25, 0, 0⟩ 10 5 10 := by
        rw [qdhLoop_step 4 Qdh.zero (10 + 10) (1 / 2 * (10 + 10)) 10 (by norm_num [Qdh.zero])]
        norm_num [Qdh.zero, Qdh.increment, Qdh.flush]
      have r2 : qdhLoop 4 (⟨25, 0, 0⟩ : Qdh) 10 5 10 = qdhLoop 3 ⟨50, 0, 0⟩ 0 0 10 := by
        rw [qdhLoop_step 3 ⟨25, 0, 0⟩ 10 5 10 (by norm_num)]
        norm_num [Qdh.increment, Qdh.flush]
      rw [Qdh.update, r1, r2, qdhLoop_stop 3 ⟨50, 0, 0⟩ 0 0 10 (by norm_num), exceptMap_ok]
      norm_num [Qdh.increment])

theorem monadBind_ok {ε α β : Type} (a : α) (f : α → Except ε β) :
    ((Except.ok a : Except ε α) >>= f) = f a := rfl

theorem monadBind_error {ε α β : Type} (er : ε) (f : α → Except ε β) :
    ((Except.error er : Except ε α) >>= f) = Except.error er := rfl

theorem monadPure {ε α : Type} (a : α) : (pure a : Except ε α) = Except.ok a := rfl

theorem resolveField_first_some (e : Elem) (pth : List Tag) (paths : List (List Tag))
    (v : ℚ) (h : childValue e pth = .ok (some v)) :
    resolveField e (pth :: paths) = .ok (some v) := by
  rw [resolveField, h]

theorem resolveField_skip (e : Elem) (pth : List Tag) (paths : List (List Tag))
    (h : childValue e pth = .ok none) :
    resolveField e (pth :: paths) = resolveField e paths := by
  rw [resolveField, h]

theorem resolveField_fail (e : Elem) (pth : List Tag) (paths : List (List Tag))
    (er : TcxErr) (h : childValue e pth = .error er) :
    resolveField e (pth :: paths) = .error er := by
  rw [resolveField, h]

theorem parse_resolves (e : Elem) (p : Trackpoint) (h : parseTrackpoint e = .ok p) :
    ∀ f : TrkPtField, resolveField e f.get_tags = .ok (p.get f) := by
  rw [parseTrackpoint] at h
  cases ht : childValue e [Tag.Time] with
  | error er => rw [ht] at h; exact absurd h (by simp)
  | ok tv =>
      cases tv with
      | none => rw [ht] at h; exact absurd h (by simp)
      | some t =>
          rw [ht] at h
          simp only [TRK_PT_FIELD, List.foldlM_cons, List.foldlM_nil] at h
          cases r1 : resolveField e TrkPtField.Latitude.get_tags with
          | error er => rw [r1, exceptMap_error, monadBind_error] at h; exact absurd h (by simp)
          | ok v1 =>
          rw [r1, exceptMap_ok, monadBind_ok] at h
          cases r2 : resolveField e TrkPtField.Longitude.get_tags with
          | error er => rw [r2, exceptMap_error, monadBind_error] at h; exact absurd h (by simp)
          | ok v2 =>
          rw [r2, exceptMap_ok, monadBind_ok] at h
          cases r3 : resolveField e TrkPtField.Altitude.get_tags with
          | error er => rw [r3, exceptMap_error, monadBind_error] at h; exact absurd h (by simp)
          | ok v3 =>
          rw [r3, exceptMap_ok, monadBind_ok] at h
          cases r4 : resolveField e TrkPtField.Distance.get_tags with
          | error er => rw [r4, exceptMap_error, monadBind_error] at h; exact absurd h (by simp)
          | ok v4 =>
          rw [r4, exceptMap_ok, monadBind_ok] at h
          cases r5 : resolveField e TrkPtField.Heartrate.get_tags with
          | error er => rw [r5, exceptMap_error, monadBind_error] at h; exact absurd h (by simp)
          | ok v5 =>
          rw [r5, exceptMap_ok, monadBind_ok] at h
          cases r6 : resolveField e TrkPtField.Cadence.get_tags with
          | error er => rw [r6, exceptMap_error, monadBind_error] at h; exact absurd h (by simp)
          | ok v6 =>
          rw [r6, exceptMap_ok, monadBind_ok] at h
          cases r7 : resolveField e TrkPtField.Speed.get_tags with
          | error er => rw [r7, exceptMap_error, monadBind_error] at h; exact absurd h (by simp)
          | ok v7 =>
          rw [r7, exceptMap_ok, monadBind_ok] at h
          cases r8 : resolveField e TrkPtField.Power.get_tags with
          | error er => rw [r8, exceptMap_error, monadBind_error] at h; exact absurd h (by simp)
          | ok v8 =>
          rw [r8, exceptMap_ok, monadBind_ok, monadPure] at h
          cases h
          intro f
          cases f with
          | Latitude => exact r1
          | Longitude => exact r2
          | Altitude => exact r3
          | Distance => exact r4
          | Heartrate => exact r5
          | Cadence => exact r6
          | Speed => exact r7
          | Power => exact r8

/-- Claim C7: on a successfully parsed sample node, every field's value is
exactly the result of trying its alternate tag-paths in listed order —
the first path whose full traversal yields a parsable value supplies the
field and later paths are not consulted (the result does not depend on
them), an absent hop falls through to the next path, and a present but
unparsable text on the path being tried aborts resolution with a hard
failure; in particular, when the primary cadence path is present its value
wins over the extension path. -/
theorem field_priority (e : Elem) (p : Trackpoint) (h : parseTrackpoint e = .ok p) :
    (∀ f : TrkPtField, resolveField e f.get_tags = .ok (p.get f)) ∧
      (∀ (pth : List Tag) (paths : List (List Tag)) (v : ℚ),
        childValue e pth = .ok (some v) → resolveField e (pth :: paths) = .ok (some v)) ∧
      (∀ (pth : List Tag) (paths : List (List Tag)),
        childValue e pth = .ok none → resolveField e (pth :: paths) = resolveField e paths) ∧
      (∀ (pth : List Tag) (paths : List (List Tag)) (er : TcxErr),
        childValue e pth = .error er → resolveField e (pth :: paths) = .error er) ∧
      (∀ v : ℚ, childValue e [Tag.Cadence] = .ok (some v) → p.cadence = some v) := by
  refine ⟨parse_resolves e p h, resolveField_first_some e, resolveField_skip e,
    resolveField_fail e, ?_⟩
  intro v hv
  have h1 := parse_resolves e p h TrkPtField.Cadence
  have h2 := resolveField_first_some e [Tag.Cadence]
    [[Tag.Extensions, Tag.TPX, Tag.RunCadence]] v hv
  rw [TrkPtField.get_tags] at h1
  rw [h2] at h1
  exact (Except.ok.inj h1).symm

/-- A sample node carrying both the primary cadence tag (value `7`) and the
extension `RunCadence` tag (value `9`). -/
def cadElem : Elem :=
  .node .Trackpoint none
    [.node .Time (some 0) [],
     .node .Cadence (some 7) [],
     .node .Extensions none [.node .TPX none [.node .RunCadence (some 9) []]]]

/-- Witness for C7: parsing `cadElem` succeeds and the primary cadence
value `7` is used even though the alternate path is fully present with
value `9`. -/
theorem field_priority_witness :
    ({ time := 0, cadence := some 7 } : Trackpoint).cadence = some 7 :=
  (field_priority cadElem { time := 0, cadence := some 7 } rfl).2.2.2.2 7 rfl

theorem dedupFrom_eq_spec {α : Type} [DecidableEq α] :
    ∀ (l : List α) (prev : α), dedupFrom prev l = specDedup (some prev) l := by
  intro l
  induction l with
  | nil => intro prev; rfl
  | cons b l ih =>
      intro prev
      rw [dedupFrom, specDedup]
      by_cases hb : b = prev
      · subst hb
        rw [if_pos rfl, if_pos rfl]
        exact ih b
      · rw [if_neg hb, if_neg (fun hc => hb (Option.some.inj hc))]
        rw [ih b]

theorem dedup_eq_spec {α : Type} [DecidableEq α] (l : List α) :
    dedup l = specDedup none l := by
  cases l with
  | nil => rfl
  | cons a l =>
      rw [dedup, specDedup, if_neg (by simp), dedupFrom_eq_spec l a]

theorem dedupFrom_sublist {α : Type} [DecidableEq α] :
    ∀ (l : List α) (prev : α), (dedupFrom prev l).Sublist l := by
  intro l
  induction l with
  | nil => intro prev; rw [dedupFrom]
  | cons b l ih =>
      intro prev
      rw [dedupFrom]
      by_cases hb : b = prev
      · rw [if_pos hb]
        exact (ih prev).cons b
      · rw [if_neg hb]
        exact (ih b).cons₂ b

theorem dedup_sublist {α : Type} [DecidableEq α] (l : List α) : (dedup l).Sublist l := by
  cases l with
  | nil => rw [dedup]
  | cons a l =>
      rw [dedup]
      exact (dedupFrom_sublist l a).cons₂ a

theorem dedupFrom_chain {α : Type} [DecidableEq α] :
    ∀ (l : List α) (prev : α), List.Chain' (fun a b => a ≠ b) (prev :: dedupFrom prev l) := by
  intro l
  induction l with
  | nil => intro prev; simp [dedupFrom]
  | cons b l ih =>
      intro prev
      rw [dedupFrom]
      by_cases hb : b = prev
      · rw [if_pos hb]
        exact ih prev
      · rw [if_neg hb]
        rw [List.chain'_cons]
        exact ⟨fun hc => hb hc.symm, ih b⟩

theorem dedup_chain {α : Type} [DecidableEq α] (l : List α) :
    List.Chain' (fun a b => a ≠ b) (dedup l) := by
  cases l with
  | nil => rw [dedup]; exact List.chain'_nil
  | cons a l =>
      rw [dedup]
      exact dedupFrom_chain l a

theorem parseFiltered_mem {filter : Trackpoint → Bool} :
    ∀ (es : List Elem) (mid : List Trackpoint),
      parseFiltered filter es = .ok mid → ∀ t ∈ mid, filter t = true := by
  intro es
  induction es with
  | nil =>
      intro mid h t ht
      rw [parseFiltered] at h
      cases h
      exact absurd ht (List.not_mem_nil t)
  | cons e es ih =>
      intro mid h t ht
      cases hp : parseTrackpoint e with
      | error er => rw [parseFiltered, hp] at h; exact absurd h (by simp)
      | ok tp =>
          simp only [parseFiltered, hp] at h
          by_cases hf : filter tp
          · rw [if_pos hf] at h
            cases hr : parseFiltered filter es with
            | error er => rw [hr, exceptMap_error] at h; exact absurd h (by simp)
            | ok rest =>
                rw [hr, exceptMap_ok] at h
                cases h
                rcases List.mem_cons.mp ht with rfl | hmem
                · exact hf
                · exact ih rest hr t hmem
          · rw [if_neg hf] at h
            exact ih mid h t ht

/-- Claim C8: extraction applies the external filter to the parsed sample
sequence first (`mid` is the parse-then-filter pass, every element of the
result passes the filter), and deduplication then drops exactly those
elements that compare fully equal to their immediate predecessor and
nothing else: the result equals the spec-side predecessor scan, is a
subsequence of the filtered sequence, and has no two adjacent equal
elements. -/
theorem extract_filter_dedup (doc : Elem) (filter : Trackpoint → Bool)
    (mid out : List Trackpoint)
    (hmid : parseFiltered filter (collectPoints doc) = .ok mid)
    (h : fromTcx doc filter = .ok out) :
    out = dedup mid ∧ out = specDedup none mid ∧ out.Sublist mid ∧
      List.Chain' (fun a b => a ≠ b) out ∧ ∀ t ∈ out, filter t = true := by
  rw [fromTcx, hmid, exceptMap_ok] at h
  cases h
  refine ⟨rfl, dedup_eq_spec mid, dedup_sublist mid, dedup_chain mid, ?_⟩
  intro t ht
  exact parseFiltered_mem (collectPoints doc) mid hmid t ((dedup_sublist mid).subset ht)

/-- A sample node with integer time and distance only. -/
def tpNode (t d : ℚ) : Elem :=
  .node .Trackpoint none [.node .Time (some t) [], .node .DistanceMeters (some d) []]

/-- A document with two laps that repeat their shared boundary sample, as
overlapping source sub-sections do. -/
def sampleDoc : Elem :=
  .node .Activities none
    [.node .Activities none
      [.node .Activity none
        [.node .Lap none [.node .Track none [tpNode 0 0, tpNode 1 4]],
         .node .Lap none [.node .Track none [tpNode 1 4, tpNode 2 9]]]]]

/-- The four parsed samples of `sampleDoc` in document order (the boundary
sample appears twice). -/
def rawPts : List Trackpoint :=
  [{ time := 0, distance := some 0 }, { time := 1, distance := some 4 },
   { time := 1, distance := some 4 }, { time := 2, distance := some 9 }]

/-- `rawPts` with the consecutive duplicate removed. -/
def dedupPts : List Trackpoint :=
  [{ time := 0, distance := some 0 }, { time := 1, distance := some 4 },
   { time := 2, distance := some 9 }]

/-- Witness for C8 on `sampleDoc`: the duplicated boundary sample is
removed and nothing else. -/
theorem extract_filter_dedup_witness :
    dedupPts = dedup rawPts ∧ dedupPts = specDedup none rawPts ∧
      dedupPts.Sublist rawPts ∧ List.Chain' (fun a b => a ≠ b) dedupPts :=
  match extract_filter_dedup sampleDoc (fun _ => true) rawPts dedupPts rfl rfl with
  | ⟨h1, h2, h3, h4, _⟩ => ⟨h1, h2, h3, h4⟩

end Tcx
